import Mathlib

set_option maxHeartbeats 1000000

namespace Howl

/-!
Shallow embedding of the howl repository excerpt:
  - src/ww4ff/data/transform/base.py  (transform library: ZmuvTransform, batchify, WakeWordBatchifier)
  - src/howl/client/howl_client.py    (HowlClient: construction, start, per-chunk handler, listeners)
  - src/howl/run/demo.py              (InferenceClient: per-chunk handler with console output)

Tensor arithmetic is modelled exactly: scalar tensor entries are rationals
(every floating-point value is a rational, and the claims under proof are
stated for exact arithmetic), waveforms are lists of scalars, and the audio
capture callback is modelled as a state transition that also emits the
externally observable events (inference calls, log lines, listener
invocations, console prints).
-/

/-- Scalar value of a floating-point tensor operation that can leave the
rationals: either an ordinary real number or the IEEE not-a-number value that
torch produces for out-of-domain operations (for example the square root of a
negative number). -/
inductive TVal where
  | real : ℝ → TVal
  | nan : TVal

/-- Behaviour of torch.Tensor.sqrt on a scalar tensor: NaN for a negative
input, the real square root otherwise.  No exception is raised by torch for a
negative input. -/
noncomputable def tensorSqrt (x : ℚ) : TVal :=
  if x < 0 then TVal.nan else TVal.real (Real.sqrt (x : ℝ))

/-- State of ZmuvTransform (src/ww4ff/data/transform/base.py, lines 132-137):
the three registered buffers total, mean, mean2.  std is derived, never
stored. -/
structure ZmuvTransform where
  total : ℚ
  mean : ℚ
  mean2 : ℚ
deriving DecidableEq

/-- The state set up by ZmuvTransform.__init__ (lines 133-137): all three
buffers start at zero. -/
def ZmuvTransform.mk0 : ZmuvTransform := ⟨0, 0, 0⟩

/-- ZmuvTransform.update (lines 139-148).  With a mask, data is first
multiplied elementwise by the mask and the effective count is the mask's sum;
without a mask the effective count is data's element count.  mean and mean2
are recombined as weighted averages using the old total, and total is
incremented last (so both divisions use the old total, exactly as in the
source, where self.total += mask_size runs after both assignments). -/
def ZmuvTransform.update (self : ZmuvTransform) (data : List ℚ)
    (mask : Option (List ℚ)) : ZmuvTransform :=
  let d : List ℚ :=
    match mask with
    | some m => List.zipWith (fun x y => x * y) data m
    | none => data
  let mask_size : ℚ :=
    match mask with
    | some m => m.sum
    | none => (data.length : ℚ)
  { total := self.total + mask_size
    mean := (d.sum + self.mean * self.total) / (self.total + mask_size)
    mean2 := ((d.map fun x => x ^ 2).sum + self.mean2 * self.total) / (self.total + mask_size) }

/-- ZmuvTransform.std (lines 154-156): sqrt(mean2 - mean ** 2), computed on
demand from the two buffers and never stored. -/
noncomputable def ZmuvTransform.std (self : ZmuvTransform) : TVal :=
  tensorSqrt (self.mean2 - self.mean ^ 2)

theorem ZmuvTransform.update_none (self : ZmuvTransform) (data : List ℚ) :
    self.update data none =
      ⟨self.total + data.length,
       (data.sum + self.mean * self.total) / (self.total + data.length),
       ((data.map fun x => x ^ 2).sum + self.mean2 * self.total) / (self.total + data.length)⟩ :=
  rfl

/-- C5: a first unmasked ZmuvTransform.update (total = 0) with N identical
values v yields mean = v, mean2 = v squared, std = 0 and total = N. -/
theorem zmuv_first_update_identical (N : ℕ) (v : ℚ) (hN : 0 < N) :
    (ZmuvTransform.mk0.update (List.replicate N v) none).mean = v ∧
    (ZmuvTransform.mk0.update (List.replicate N v) none).mean2 = v ^ 2 ∧
    (ZmuvTransform.mk0.update (List.replicate N v) none).std = TVal.real 0 ∧
    (ZmuvTransform.mk0.update (List.replicate N v) none).total = N := by
  have hN0 : ((N : ℚ)) ≠ 0 := Nat.cast_ne_zero.mpr hN.ne'
  have hmean : (ZmuvTransform.mk0.update (List.replicate N v) none).mean = v := by
    simp [ZmuvTransform.update_none, ZmuvTransform.mk0, List.sum_replicate, nsmul_eq_mul,
      mul_div_assoc, mul_div_cancel_left₀ v hN0]
  have hmean2 : (ZmuvTransform.mk0.update (List.replicate N v) none).mean2 = v ^ 2 := by
    simp [ZmuvTransform.update_none, ZmuvTransform.mk0, List.map_replicate,
      List.sum_replicate, nsmul_eq_mul, mul_div_assoc, mul_div_cancel_left₀ (v ^ 2) hN0]
  refine ⟨hmean, hmean2, ?_, ?_⟩
  · simp [ZmuvTransform.std, hmean, hmean2, tensorSqrt]
  · simp [ZmuvTransform.update_none, ZmuvTransform.mk0]

/-- Witness for C5 at N = 3, v = 2. -/
theorem zmuv_first_update_identical_witness :
    0 < 3 ∧
    (ZmuvTransform.mk0.update (List.replicate 3 (2 : ℚ)) none).mean = 2 ∧
    (ZmuvTransform.mk0.update (List.replicate 3 (2 : ℚ)) none).mean2 = 2 ^ 2 ∧
    (ZmuvTransform.mk0.update (List.replicate 3 (2 : ℚ)) none).std = TVal.real 0 ∧
    (ZmuvTransform.mk0.update (List.replicate 3 (2 : ℚ)) none).total = 3 :=
  ⟨by decide, zmuv_first_update_identical 3 2 (by decide)⟩

/-- C6: two successive unmasked updates, on A and then on B, produce the same
mean, mean2 and total as a single unmasked update on the concatenation
A ++ B, in exact arithmetic, for every starting state with a nonnegative
running count (total starts at zero and every unmasked update adds a
nonnegative element count, so every reachable state satisfies this). -/
theorem zmuv_update_concat (st : ZmuvTransform) (A B : List ℚ)
    (hA : A ≠ []) (hB : B ≠ []) (ht : 0 ≤ st.total) :
    ((st.update A none).update B none).mean = (st.update (A ++ B) none).mean ∧
    ((st.update A none).update B none).mean2 = (st.update (A ++ B) none).mean2 ∧
    ((st.update A none).update B none).total = (st.update (A ++ B) none).total := by
  have ha1 : (1 : ℚ) ≤ (A.length : ℚ) := by
    exact_mod_cast Nat.one_le_iff_ne_zero.mpr (fun h => hA (List.length_eq_zero.mp h))
  have hta : (0 : ℚ) < st.total + (A.length : ℚ) := by linarith
  simp only [ZmuvTransform.update_none, List.sum_append, List.map_append,
    List.length_append, Nat.cast_add]
  refine ⟨?_, ?_, ?_⟩
  · rw [div_mul_cancel₀ _ hta.ne']
    congr 1 <;> ring
  · rw [div_mul_cancel₀ _ hta.ne']
    congr 1 <;> ring
  · ring

/-- Witness for C6 with st = mk0, A = [1], B = [2, 3]. -/
theorem zmuv_update_concat_witness :
    ([(1 : ℚ)] ≠ [] ∧ [(2 : ℚ), 3] ≠ [] ∧ 0 ≤ ZmuvTransform.mk0.total) ∧
    ((ZmuvTransform.mk0.update [(1 : ℚ)] none).update [2, 3] none).mean =
      (ZmuvTransform.mk0.update ([(1 : ℚ)] ++ [2, 3]) none).mean ∧
    ((ZmuvTransform.mk0.update [(1 : ℚ)] none).update [2, 3] none).mean2 =
      (ZmuvTransform.mk0.update ([(1 : ℚ)] ++ [2, 3]) none).mean2 ∧
    ((ZmuvTransform.mk0.update [(1 : ℚ)] none).update [2, 3] none).total =
      (ZmuvTransform.mk0.update ([(1 : ℚ)] ++ [2, 3]) none).total :=
  ⟨⟨by decide, by decide, by decide⟩,
    zmuv_update_concat ZmuvTransform.mk0 [1] [2, 3] (by decide) (by decide) (by decide)⟩

/-- C7 counterexample: at the state (total, mean, mean2) = (1, 1, 0) the
radicand mean2 - mean ** 2 is negative, and reading std produces the NaN
value: torch's tensor sqrt of a negative number is NaN, so no
arithmetic/domain error is raised, contrary to the claim. -/
theorem zmuv_std_negative_radicand_counterexample :
    ((⟨1, 1, 0⟩ : ZmuvTransform).mean2 - (⟨1, 1, 0⟩ : ZmuvTransform).mean ^ 2 < 0) ∧
    (⟨1, 1, 0⟩ : ZmuvTransform).std = TVal.nan := by
  refine ⟨by norm_num, ?_⟩
  simp only [ZmuvTransform.std, tensorSqrt]
  norm_num

/-- C7 amended: for every statistics state whose radicand mean2 - mean ** 2 is
negative, reading ZmuvTransform.std yields NaN (no exception, no clamping);
std is computed as sqrt(mean2 - mean ** 2) and never stored. -/
theorem zmuv_std_negative_radicand_nan (st : ZmuvTransform)
    (h : st.mean2 - st.mean ^ 2 < 0) : st.std = TVal.nan := by
  simp only [ZmuvTransform.std, tensorSqrt, if_pos h]

/-- Witness for the amended C7 at the state (5, 2, 3): radicand 3 - 4 < 0. -/
theorem zmuv_std_negative_radicand_nan_witness :
    ((⟨5, 2, 3⟩ : ZmuvTransform).mean2 - (⟨5, 2, 3⟩ : ZmuvTransform).mean ^ 2 < 0) ∧
    (⟨5, 2, 3⟩ : ZmuvTransform).std = TVal.nan :=
  ⟨by norm_num, zmuv_std_negative_radicand_nan ⟨5, 2, 3⟩ (by norm_num)⟩

/-- Auxiliary inequality: 2 x (sum l) is at most (length l) x^2 + sum of the
squares of l. -/
theorem list_two_mul_sum_le (x : ℚ) : ∀ l : List ℚ,
    2 * x * l.sum ≤ (l.length : ℚ) * x ^ 2 + (l.map fun y => y ^ 2).sum
  | [] => by simp
  | y :: ys => by
    have ih := list_two_mul_sum_le x ys
    have hxy : 2 * x * y ≤ x ^ 2 + y ^ 2 := by nlinarith [sq_nonneg (x - y)]
    simp only [List.sum_cons, List.map_cons, List.length_cons]
    push_cast
    nlinarith [ih, hxy]

/-- Cauchy-Schwarz for list sums: (sum l)^2 is at most (length l) times the
sum of the squares of l. -/
theorem list_sq_sum_le : ∀ l : List ℚ,
    l.sum ^ 2 ≤ (l.length : ℚ) * (l.map fun y => y ^ 2).sum
  | [] => by simp
  | y :: ys => by
    have ih := list_sq_sum_le ys
    have aux := list_two_mul_sum_le y ys
    simp only [List.sum_cons, List.map_cons, List.length_cons]
    push_cast
    nlinarith [ih, aux]

/-- Sum of squares of a list of rationals is nonnegative. -/
theorem list_sq_sum_nonneg (l : List ℚ) : 0 ≤ (l.map fun y => y ^ 2).sum := by
  apply List.sum_nonneg
  intro z hz
  simp only [List.mem_map] at hz
  obtain ⟨w, _, rfl⟩ := hz
  positivity

/-- Invariant of the ZmuvTransform statistics: the running count is
nonnegative and the radicand of std is nonnegative. -/
def ZmuvInv (st : ZmuvTransform) : Prop :=
  0 ≤ st.total ∧ st.mean ^ 2 ≤ st.mean2

/-- Preservation: an unmasked update preserves the invariant. -/
theorem zmuv_inv_update (st : ZmuvTransform) (data : List ℚ) (h : ZmuvInv st) :
    ZmuvInv (st.update data none) := by
  obtain ⟨ht, hm⟩ := h
  rw [ZmuvTransform.update_none]
  have hn : (0 : ℚ) ≤ (data.length : ℚ) := Nat.cast_nonneg _
  constructor
  · dsimp only
    linarith
  · dsimp only
    rcases eq_or_lt_of_le (by linarith : (0 : ℚ) ≤ st.total + (data.length : ℚ)) with heq | hpos
    · have hT : st.total = 0 := by linarith
      have hL : (data.length : ℚ) = 0 := by linarith
      have hD : data = [] := List.length_eq_zero.mp (by exact_mod_cast hL)
      subst hD
      simp [hT]
    · have hCS := list_sq_sum_le data
      have hS2 := list_sq_sum_nonneg data
      have key : (data.sum + st.mean * st.total) ^ 2 ≤
          ((data.map fun y => y ^ 2).sum + st.mean2 * st.total) *
            (st.total + (data.length : ℚ)) := by
        rcases eq_or_lt_of_le hn with hn0 | hnpos
        · have hD : data = [] := List.length_eq_zero.mp (by exact_mod_cast hn0.symm)
          subst hD
          simp only [List.sum_nil, List.map_nil, List.length_nil, Nat.cast_zero, zero_add,
            add_zero]
          nlinarith [sq_nonneg st.total, mul_le_mul_of_nonneg_right hm (sq_nonneg st.total)]
        · nlinarith [mul_nonneg ht (sq_nonneg (data.sum - (data.length : ℚ) * st.mean)),
            mul_nonneg (mul_nonneg (mul_nonneg ht ht) hn) (sub_nonneg.mpr hm),
            mul_nonneg hn (sub_nonneg.mpr hCS),
            mul_nonneg (mul_nonneg ht (mul_nonneg hn hn)) (sub_nonneg.mpr hm),
            mul_nonneg ht (sub_nonneg.mpr hCS), hnpos]
      rw [div_pow, div_le_div_iff₀ (by positivity) hpos]
      nlinarith [key, hpos.le]

/-- The invariant holds after any sequence of unmasked updates from a state
satisfying it. -/
theorem zmuv_inv_foldl (datas : List (List ℚ)) :
    ∀ st : ZmuvTransform, ZmuvInv st →
      ZmuvInv (datas.foldl (fun s d => s.update d none) st) := by
  induction datas with
  | nil => intro st h; exact h
  | cons d ds ih =>
    intro st h
    exact ih _ (zmuv_inv_update st d h)

/-- C10: the predicate total >= 0 and mean2 >= mean^2 holds of the initial
ZmuvTransform statistics, is preserved by every unmasked update, and hence
after any sequence of unmasked updates the radicand of std is nonnegative. -/
theorem zmuv_radicand_invariant :
    ZmuvInv ZmuvTransform.mk0 ∧
    (∀ (st : ZmuvTransform) (data : List ℚ), ZmuvInv st → ZmuvInv (st.update data none)) ∧
    (∀ datas : List (List ℚ),
      0 ≤ (datas.foldl (fun s d => s.update d none) ZmuvTransform.mk0).mean2 -
          (datas.foldl (fun s d => s.update d none) ZmuvTransform.mk0).mean ^ 2) := by
  refine ⟨⟨le_refl 0, by norm_num [ZmuvTransform.mk0]⟩, zmuv_inv_update, ?_⟩
  intro datas
  have h := zmuv_inv_foldl datas ZmuvTransform.mk0
    ⟨le_refl 0, by norm_num [ZmuvTransform.mk0]⟩
  linarith [h.2]

/-- Witness for C10: the preservation conjunct applied at the state
(2, 1, 3) and the data [5]. -/
theorem zmuv_radicand_invariant_witness :
    ZmuvInv ⟨2, 1, 3⟩ ∧ ZmuvInv (ZmuvTransform.update ⟨2, 1, 3⟩ [5] none) := by
  have h : ZmuvInv (⟨2, 1, 3⟩ : ZmuvTransform) := ⟨by norm_num, by norm_num⟩
  exact ⟨h, zmuv_radicand_invariant.2.1 ⟨2, 1, 3⟩ [5] h⟩

/-- Padded classification batch (external contract of ClassificationBatch as
used at src/ww4ff/data/transform/base.py lines 63-70 and 118-125): a 2-D
audio tensor given as its list of rows, an optional 1-D label tensor, and the
1-D tensor of pre-padding lengths. -/
structure ClassificationBatch (α : Type) where
  audio : List (List α)
  labels : Option (List ℤ)
  lengths : List ℕ
deriving DecidableEq

/-- Comparison used by sorted(examples, key=lambda x: x.audio_data.size()[-1],
reverse=True): x may precede y when y is no longer than x. -/
def lenDescRel {α : Type} (x y : List α) : Prop := y.length ≤ x.length

instance {α : Type} : DecidableRel (@lenDescRel α) :=
  fun x y => inferInstanceAs (Decidable (y.length ≤ x.length))

instance {α : Type} : IsTotal (List α) lenDescRel :=
  ⟨fun a b => le_total b.length a.length⟩

instance {α : Type} : IsTrans (List α) lenDescRel :=
  ⟨fun _ _ _ hab hbc => le_trans hbc hab⟩

/-- sorted(examples, key=lambda x: x.audio_data.size()[-1], reverse=True)
(line 64): a stable sort by descending waveform length, modelled by the
stable insertion sort. -/
def sortByLengthDesc {α : Type} (examples : List (List α)) : List (List α) :=
  List.insertionSort lenDescRel examples

/-- Result of torch.Tensor.squeeze() on a 1-D waveform: the waveform itself,
unless it holds exactly one sample — then the size-1 dimension is removed and
a 0-dimensional scalar remains. -/
inductive SqueezedTensor (α : Type) where
  | oneD : List α → SqueezedTensor α
  | zeroD : α → SqueezedTensor α
deriving DecidableEq

/-- ex.audio_data.squeeze() (line 67) applied to a 1-D waveform. -/
def squeeze1D {α : Type} : List α → SqueezedTensor α
  | [x] => SqueezedTensor.zeroD x
  | l => SqueezedTensor.oneD l

/-- torch.cat((t, zeros), -1) (line 67) where t is the squeezed waveform:
torch.cat rejects 0-dimensional arguments with a RuntimeError, and otherwise
concatenates along the last dimension. -/
def torchCat1D {α : Type} (t : SqueezedTensor α) (zs : List α) :
    Except String (List α) :=
  match t with
  | SqueezedTensor.zeroD _ =>
      Except.error "zero-dimensional tensor (at position 0) cannot be concatenated"
  | SqueezedTensor.oneD l => Except.ok (l ++ zs)

/-- max(ex.audio_data.size(-1) for ex in examples) (line 66), where examples
was rebound to the sorted list on line 64; Python's max over the non-empty
group is modelled as a fold. -/
def batchMaxLength {α : Type} (examples : List (List α)) : ℕ :=
  ((sortByLengthDesc examples).map List.length).foldr max 0

/-- The list comprehension of lines 67-68: one squeezed-and-padded row per
sorted example, raising at the first example whose squeeze cannot be
concatenated. -/
def batchifyRows {α : Type} [Zero α] (max_length : ℕ) :
    List (List α) → Except String (List (List α))
  | [] => Except.ok []
  | ex :: rest =>
    match torchCat1D (squeeze1D ex) (List.replicate (max_length - ex.length) 0) with
    | Except.error e => Except.error e
    | Except.ok row =>
      match batchifyRows max_length rest with
      | Except.error e => Except.error e
      | Except.ok rows => Except.ok (row :: rows)

/-- batchify (lines 63-70): sort the examples by waveform length descending,
record the pre-padding lengths in that order, squeeze each waveform, zero-pad
it at the trailing end to the group maximum, stack, and return the batch with
no label tensor.  A single-sample waveform squeezes to a 0-dimensional
tensor, which torch.cat rejects, so batchify raises on such an input. -/
def batchify {α : Type} [Zero α] (examples : List (List α)) :
    Except String (ClassificationBatch α) :=
  match batchifyRows (batchMaxLength examples) (sortByLengthDesc examples) with
  | Except.error e => Except.error e
  | Except.ok audio =>
      Except.ok { audio := audio, labels := none,
                  lengths := (sortByLengthDesc examples).map List.length }

/-- Every member of a list of naturals is at most the fold of max over it. -/
theorem mem_le_foldr_max : ∀ (l : List ℕ) (a : ℕ), a ∈ l → a ≤ l.foldr max 0
  | [], a, h => by cases h
  | b :: t, a, h => by
    rcases List.mem_cons.mp h with rfl | h
    · exact le_max_left _ _
    · exact le_trans (mem_le_foldr_max t a h) (le_max_right _ _)

/-- The sorted output is a permutation of the input whose lengths are in
descending order. -/
theorem sortByLengthDesc_sorted_perm {α : Type} (examples : List (List α)) :
    ((sortByLengthDesc examples).map List.length).Pairwise (fun a b => a ≥ b) ∧
    List.Perm (sortByLengthDesc examples) examples := by
  constructor
  · have hs := List.sorted_insertionSort lenDescRel examples
    exact hs.map List.length fun a b h => h
  · exact List.perm_insertionSort lenDescRel examples

instance {ε α : Type} [DecidableEq ε] [DecidableEq α] : DecidableEq (Except ε α)
  | Except.error e, Except.error f =>
      if h : e = f then isTrue (congrArg Except.error h)
      else isFalse fun hh => h (Except.error.inj hh)
  | Except.error _, Except.ok _ => isFalse fun hh => Except.noConfusion hh
  | Except.ok _, Except.error _ => isFalse fun hh => Except.noConfusion hh
  | Except.ok x, Except.ok y =>
      if h : x = y then isTrue (congrArg Except.ok h)
      else isFalse fun hh => h (Except.ok.inj hh)

theorem squeeze1D_of_length_ne_one {α : Type} (l : List α) (h : l.length ≠ 1) :
    squeeze1D l = SqueezedTensor.oneD l := by
  rcases l with _ | ⟨x, _ | ⟨y, rest⟩⟩
  · rfl
  · exact absurd rfl h
  · rfl

/-- When no example is a single-sample waveform, the row comprehension
succeeds and yields the trailing-zero-padded rows in order. -/
theorem batchifyRows_ok {α : Type} [Zero α] (M : ℕ) :
    ∀ l : List (List α), (∀ ex ∈ l, ex.length ≠ 1) →
      batchifyRows M l =
        Except.ok (l.map fun ex => ex ++ List.replicate (M - ex.length) 0)
  | [], _ => rfl
  | ex :: rest, h => by
    have hex : ex.length ≠ 1 := h ex (List.mem_cons_self ex rest)
    have hrest := batchifyRows_ok M rest fun e he => h e (List.mem_cons_of_mem ex he)
    unfold batchifyRows
    rw [squeeze1D_of_length_ne_one ex hex]
    simp only [torchCat1D]
    rw [hrest]
    rfl

/-- C8 counterexample: a non-empty input whose only waveform has a single
sample — the original claim asserts a normal batch return, but squeeze()
collapses that waveform to a 0-dimensional tensor and torch.cat on line 67
raises, so batchify fails instead of returning a batch. -/
theorem batchify_singleton_counterexample :
    ([[(5 : ℚ)]] : List (List ℚ)) ≠ [] ∧
    batchify [[(5 : ℚ)]] =
      Except.error "zero-dimensional tensor (at position 0) cannot be concatenated" :=
  ⟨by decide, by decide⟩

/-- C8 amended: for every non-empty sequence of examples none of which is a
single-sample waveform, batchify returns, without raising, a batch with no
label tensor, whose lengths are the pre-padding lengths in descending order
(a permutation of the input lengths), and whose audio rows are the sorted
waveforms zero-padded at the trailing end to the group maximum length. -/
theorem batchify_spec {α : Type} [Zero α] (examples : List (List α))
    (hne : examples ≠ []) (hone : ∀ ex ∈ examples, ex.length ≠ 1) :
    ∃ B : ClassificationBatch α,
      batchify examples = Except.ok B ∧
      B.labels = none ∧
      B.lengths = (sortByLengthDesc examples).map List.length ∧
      B.lengths.Pairwise (fun a b => a ≥ b) ∧
      List.Perm B.lengths (examples.map List.length) ∧
      ((sortByLengthDesc examples).map List.length).foldr max 0 =
        (examples.map List.length).foldr max 0 ∧
      (∀ row ∈ B.audio, row.length = (examples.map List.length).foldr max 0) ∧
      List.Forall₂
        (fun (row : List α) (ex : List α) =>
          row.take ex.length = ex ∧
          row.drop ex.length =
            List.replicate ((examples.map List.length).foldr max 0 - ex.length) 0)
        B.audio (sortByLengthDesc examples) := by
  obtain ⟨hsorted, hperm⟩ := sortByLengthDesc_sorted_perm examples
  have hpermlen : List.Perm ((sortByLengthDesc examples).map List.length)
      (examples.map List.length) := hperm.map List.length
  have hmax : ((sortByLengthDesc examples).map List.length).foldr max 0 =
      (examples.map List.length).foldr max 0 := by
    haveI : LeftCommutative (fun (a b : ℕ) => max a b) :=
      ⟨fun a b c => Nat.max_left_comm a b c⟩
    exact hpermlen.foldr_eq 0
  have hM : batchMaxLength examples = (examples.map List.length).foldr max 0 := hmax
  have hle : ∀ ex ∈ sortByLengthDesc examples,
      ex.length ≤ (examples.map List.length).foldr max 0 := by
    intro ex hex
    rw [← hmax]
    exact mem_le_foldr_max _ _ (List.mem_map_of_mem List.length hex)
  have honesorted : ∀ ex ∈ sortByLengthDesc examples, ex.length ≠ 1 :=
    fun ex hex => hone ex (hperm.mem_iff.mp hex)
  have hrows := batchifyRows_ok (batchMaxLength examples)
    (sortByLengthDesc examples) honesorted
  refine ⟨{ audio := (sortByLengthDesc examples).map fun ex =>
              ex ++ List.replicate (batchMaxLength examples - ex.length) 0,
            labels := none,
            lengths := (sortByLengthDesc examples).map List.length },
    ?_, rfl, rfl, hsorted, hpermlen, hmax, ?_, ?_⟩
  · unfold batchify
    rw [hrows]
  · intro row hrow
    simp only [List.mem_map] at hrow
    obtain ⟨ex, hex, rfl⟩ := hrow
    have := hle ex hex
    simp only [List.length_append, List.length_replicate, hM]
    omega
  · rw [List.forall₂_map_left_iff, List.forall₂_same]
    intro ex hex
    refine ⟨List.take_left ex _, ?_⟩
    rw [List.drop_left ex _, hM]

/-- Witness for the amended C8 on waveforms of lengths [5, 3, 8]: batchify
succeeds, lengths come back as [8, 5, 3], and the audio rows are padded with
trailing zeros to length 8. -/
theorem batchify_spec_witness :
    ([[(1 : ℚ), 2, 3, 4, 5], [1, 2, 3], [1, 2, 3, 4, 5, 6, 7, 8]] ≠ [] ∧
      (∀ ex ∈ [[(1 : ℚ), 2, 3, 4, 5], [1, 2, 3], [1, 2, 3, 4, 5, 6, 7, 8]],
        ex.length ≠ 1)) ∧
    ∃ B : ClassificationBatch ℚ,
      batchify [[(1 : ℚ), 2, 3, 4, 5], [1, 2, 3], [1, 2, 3, 4, 5, 6, 7, 8]] =
        Except.ok B ∧
      B.labels = none ∧
      B.lengths = [8, 5, 3] ∧
      B.audio = [[1, 2, 3, 4, 5, 6, 7, 8], [1, 2, 3, 4, 5, 0, 0, 0],
        [1, 2, 3, 0, 0, 0, 0, 0]] := by
  refine ⟨⟨by decide, by decide⟩, ?_⟩
  obtain ⟨B, hB, -, -, -, -, -, -, -⟩ :=
    batchify_spec [[(1 : ℚ), 2, 3, 4, 5], [1, 2, 3], [1, 2, 3, 4, 5, 6, 7, 8]]
      (by decide) (by decide)
  have hcomp : batchify [[(1 : ℚ), 2, 3, 4, 5], [1, 2, 3], [1, 2, 3, 4, 5, 6, 7, 8]] =
      Except.ok (⟨[[1, 2, 3, 4, 5, 6, 7, 8], [1, 2, 3, 4, 5, 0, 0, 0],
        [1, 2, 3, 0, 0, 0, 0, 0]], none, [8, 5, 3]⟩ : ClassificationBatch ℚ) := by
    decide
  have hBval : B = ⟨[[1, 2, 3, 4, 5, 6, 7, 8], [1, 2, 3, 4, 5, 0, 0, 0],
      [1, 2, 3, 0, 0, 0, 0, 0]], none, [8, 5, 3]⟩ :=
    Except.ok.inj (hB.symm.trans hcomp)
  subst hBval
  exact ⟨_, hB, rfl, rfl, rfl⟩

/-- Python slicing wave[a:b] (step 1) for integer indices: negative indices
count from the end, and both bounds are clamped to the list. -/
def pySlice {α : Type} (l : List α) (a b : ℤ) : List α :=
  let n : ℤ := l.length
  let norm : ℤ → ℕ := fun i => if i < 0 then (max (n + i) 0).toNat else (min i n).toNat
  (l.take (norm b)).drop (norm a)

/-- Configuration of WakeWordBatchifier (lines 73-84), with the constructor's
default values. -/
structure WakeWordBatchifier where
  negative_label : ℤ
  positive_sample_prob : ℚ := 1 / 2
  window_size_ms : ℤ := 500
  sample_rate : ℤ := 16000
  positive_delta_ms : ℤ := 150

/-- Lines 114-116 of WakeWordBatchifier.__call__, negative path, after one
negative interval (a, b) has been chosen by random.choice: when the interval
is wider than window_size_ms, the window start is redrawn as
random.randint(0, int(b - self.window_size_ms)) — modelled by the parameter
r, which random.randint constrains to 0 <= r <= b - window_size_ms — and the
window end is that start plus window_size_ms; otherwise the chosen interval
itself is used as the window bounds. -/
def negWindowBounds (self : WakeWordBatchifier) (a b r : ℤ) : ℤ × ℤ :=
  if b - a > self.window_size_ms then (r, r + self.window_size_ms) else (a, b)

/-- Line 117: the (label, waveform span) pair emitted by the negative path,
pairing the sliced span with negative_label. -/
def negativeEmit {α : Type} (self : WakeWordBatchifier) (wave : List α)
    (a b r : ℤ) : ℤ × List α :=
  (self.negative_label,
    pySlice wave (negWindowBounds self a b r).1 (negWindowBounds self a b r).2)

/-- C9 counterexample: with the default window_size_ms = 500 and the chosen
negative interval (300, 1000) — realizable, for instance, from frame_labels
with the single end time 150 ms, positive_delta_ms 150, and a one-second
clip — the draw r = 0 is admissible for random.randint(0, b - 500), yet the
emitted window is (0, 500), whose start 0 lies strictly before the
interval start 300: the window is not a sub-window of the chosen interval,
because line 115 draws the start from 0 rather than from a. -/
theorem negative_window_counterexample :
    ((1000 : ℤ) - 300 > ({ negative_label := 9 } : WakeWordBatchifier).window_size_ms) ∧
    ((0 : ℤ) ≤ 0 ∧
      (0 : ℤ) ≤ 1000 - ({ negative_label := 9 } : WakeWordBatchifier).window_size_ms) ∧
    (negWindowBounds { negative_label := 9 } 300 1000 0).1 < 300 := by
  refine ⟨by decide, ⟨le_refl 0, by decide⟩, by decide⟩

/-- C9 amended: for every chosen negative interval (a, b) wider than
window_size_ms and every admissible draw r of random.randint(0, b -
window_size_ms), the emitted pair carries negative_label and the span
wave[r : r + window_size_ms]; the window has nominal width window_size_ms,
starts at or after the clip start 0, and ends at or before b — but its start
is anchored to the clip start rather than to a, so it may precede the chosen
interval. -/
theorem negative_window_amended {α : Type} (self : WakeWordBatchifier)
    (wave : List α) (a b r : ℤ) (hw : b - a > self.window_size_ms)
    (hr0 : 0 ≤ r) (hr1 : r ≤ b - self.window_size_ms) :
    negativeEmit self wave a b r =
      (self.negative_label, pySlice wave r (r + self.window_size_ms)) ∧
    (negWindowBounds self a b r).2 - (negWindowBounds self a b r).1 =
      self.window_size_ms ∧
    0 ≤ (negWindowBounds self a b r).1 ∧
    (negWindowBounds self a b r).2 ≤ b := by
  unfold negativeEmit negWindowBounds
  rw [if_pos hw]
  dsimp only
  exact ⟨rfl, by ring, hr0, by linarith⟩

/-- Witness for the amended C9: interval (300, 1000), draw r = 250,
default window 500, a three-sample waveform. -/
theorem negative_window_amended_witness :
    ((1000 : ℤ) - 300 > ({ negative_label := 9 } : WakeWordBatchifier).window_size_ms ∧
      (0 : ℤ) ≤ 250 ∧
      (250 : ℤ) ≤ 1000 - ({ negative_label := 9 } : WakeWordBatchifier).window_size_ms) ∧
    negativeEmit { negative_label := 9 } [(5 : ℚ), 6, 7] 300 1000 250 =
      (9, pySlice [(5 : ℚ), 6, 7] 250 (250 + ({ negative_label := 9 } : WakeWordBatchifier).window_size_ms)) ∧
    (negWindowBounds { negative_label := 9 } 300 1000 250).2 -
      (negWindowBounds { negative_label := 9 } 300 1000 250).1 =
        ({ negative_label := 9 } : WakeWordBatchifier).window_size_ms ∧
    0 ≤ (negWindowBounds { negative_label := 9 } 300 1000 250).1 ∧
    (negWindowBounds { negative_label := 9 } 300 1000 250).2 ≤ 1000 :=
  ⟨⟨by decide, by decide, by decide⟩,
    negative_window_amended { negative_label := 9 } [(5 : ℚ), 6, 7] 300 1000 250
      (by decide) (by decide) (by decide)⟩

/-- Samples of one delivered audio chunk: the int16 values that np.frombuffer
decodes from the callback's byte payload. -/
abbrev Chunk := List ℤ

/-- Contract of the inference engine as used by both per-chunk handlers:
engine.infer(window) reports detection for a normalized window, after which
engine.sequence holds the detected label-index sequence for that window. -/
structure EngineModel where
  infer : List ℚ → Bool
  sequence : List ℚ → List ℕ

/-- Normalization of the concatenated window (line 48 of the client, line 58
of the demo): int16 samples divided by 32767. -/
def normalizeWindow (samples : List ℤ) : List ℚ :=
  samples.map fun s => (s : ℚ) / 32767

/-- Externally observable actions of a per-chunk handler: the call into the
inference engine, a log line, a listener invocation carrying the raw index
sequence, and a console print. -/
inductive Event where
  | inferCall : List ℚ → Event
  | log : String → Event
  | invoke : ℕ → List ℕ → Event
  | consolePrint : String → Event
deriving DecidableEq

def Event.isInferCall : Event → Bool
  | Event.inferCall _ => true
  | _ => false

/-- Python str.title() restricted to ASCII: each alphabetic character that
follows a non-alphabetic character (or starts the string) is uppercased, and
every other alphabetic character is lowercased. -/
def pyTitleGo : Bool → List Char → List Char
  | _, [] => []
  | prevCased, c :: cs =>
    let cased := c.isAlpha
    (if cased then if prevCased then c.toLower else c.toUpper else c) :: pyTitleGo cased cs

def pyTitle (s : String) : String := String.mk (pyTitleGo false s.data)

/-- Mutable state of a HowlClient as touched by the per-chunk handler: the
registered listener callbacks (identified by tokens), the sliding chunk
buffer, and the last delivered chunk. -/
structure ClientState where
  listeners : List ℕ
  audio_buf : List Chunk
  last_data : Chunk
deriving DecidableEq

/-- Fields as initialized by HowlClient.__init__ (lines 18, 25-26): no
listeners, an empty buffer, a zero chunk of chunk_size samples. -/
def ClientState.mk0 (chunk_size : ℕ) : ClientState :=
  { listeners := [], audio_buf := [], last_data := List.replicate chunk_size 0 }

/-- HowlClient._on_audio (lines 39-59): record the chunk as last_data, append
it to the buffer, and return unless the buffer now holds exactly 16 chunks.
Otherwise: concatenate all 16 chunks (the b-join on line 46 happens before
the drop on line 47, so the inference window spans all 16 chunks), drop the
2 oldest chunks from the retained buffer, normalize by 32767, call
engine.infer, and, on positive detection, log the title-cased space-joined
phrase built from the vocabulary followed by " detected" and then invoke
each registered listener, in registration order, with the raw index
sequence.  Python's vocab[x] indexing is modelled by getD for the in-range
indices the claims quantify over.  The logging.info call of line 54 is
modelled as the emission of its formatted message to the external logging
interface; its extra end keyword argument is handed to that external
interface and is not modelled. -/
def HowlClient.on_audio (engine : EngineModel) (vocab : List String)
    (st : ClientState) (in_data : Chunk) : ClientState × List Event :=
  let st1 : ClientState :=
    { st with last_data := in_data, audio_buf := st.audio_buf ++ [in_data] }
  if st1.audio_buf.length ≠ 16 then (st1, [])
  else
    let window := normalizeWindow st1.audio_buf.flatten
    let st2 : ClientState := { st1 with audio_buf := st1.audio_buf.drop 2 }
    if engine.infer window then
      let seq := engine.sequence window
      let phrase := pyTitle (String.intercalate " " (seq.map fun x => vocab.getD x ""))
      (st2, Event.inferCall window :: Event.log (phrase ++ " detected") ::
        st2.listeners.foldl (fun acc l => acc ++ [Event.invoke l seq]) [])
    else
      (st2, [Event.inferCall window])

/-- HowlClient.add_listener (lines 100-102): append the callback to the
listener list, without de-duplication. -/
def HowlClient.add_listener (st : ClientState) (l : ℕ) : ClientState :=
  { st with listeners := st.listeners ++ [l] }

/-- Chunk-by-chunk delivery to the client handler, threading the state and
concatenating the emitted events in delivery order. -/
def HowlClient.deliver (engine : EngineModel) (vocab : List String) :
    ClientState → List Chunk → ClientState × List Event
  | st, [] => (st, [])
  | st, c :: cs =>
    let r1 := HowlClient.on_audio engine vocab st c
    let r2 := HowlClient.deliver engine vocab r1.1 cs
    (r2.1, r1.2 ++ r2.2)

/-- Mutable state of the demo's InferenceClient (src/howl/run/demo.py):
the sliding chunk buffer and the last delivered chunk. -/
structure DemoState where
  audio_buf : List Chunk
  last_data : Chunk
deriving DecidableEq

/-- Fields as initialized by InferenceClient.__init__ (lines 40-41). -/
def DemoState.mk0 (chunk_size : ℕ) : DemoState :=
  { audio_buf := [], last_data := List.replicate chunk_size 0 }

/-- InferenceClient._on_audio (src/howl/run/demo.py, lines 50-65): identical
chunk/window/stride handling to the client's handler; on detection it prints
the title-cased phrase followed by " detected", otherwise a 32-space blank
line. -/
def InferenceClient.on_audio (engine : EngineModel) (words : List String)
    (st : DemoState) (in_data : Chunk) : DemoState × List Event :=
  let st1 : DemoState := { last_data := in_data, audio_buf := st.audio_buf ++ [in_data] }
  if st1.audio_buf.length ≠ 16 then (st1, [])
  else
    let window := normalizeWindow st1.audio_buf.flatten
    let st2 : DemoState := { st1 with audio_buf := st1.audio_buf.drop 2 }
    if engine.infer window then
      (st2, [Event.inferCall window,
        Event.consolePrint (pyTitle (String.intercalate " "
          ((engine.sequence window).map fun x => words.getD x "")) ++ " detected")])
    else
      (st2, [Event.inferCall window, Event.consolePrint "                                "])

/-- Chunk-by-chunk delivery to the demo handler. -/
def InferenceClient.deliver (engine : EngineModel) (words : List String) :
    DemoState → List Chunk → DemoState × List Event
  | st, [] => (st, [])
  | st, c :: cs =>
    let r1 := InferenceClient.on_audio engine words st c
    let r2 := InferenceClient.deliver engine words r1.1 cs
    (r2.1, r1.2 ++ r2.2)

/-- Buffer-length transition of one handler step: append one chunk; when the
buffer reaches 16, the 2 oldest chunks are dropped within the same step. -/
def bufLenStep (L : ℕ) : ℕ := if L + 1 = 16 then 14 else L + 1

/-- n-fold iteration of bufLenStep. -/
def bufLenIter : ℕ → ℕ → ℕ
  | 0, L => L
  | n + 1, L => bufLenIter n (bufLenStep L)

/-- Number of inference calls over n handler steps starting from buffer
length L: a call fires exactly at the steps whose append reaches 16. -/
def inferCntIter : ℕ → ℕ → ℕ
  | 0, _ => 0
  | n + 1, L => (if L + 1 = 16 then 1 else 0) + inferCntIter n (bufLenStep L)

theorem bufLenIter_succ_outer : ∀ (n L : ℕ),
    bufLenIter (n + 1) L = bufLenStep (bufLenIter n L) := by
  intro n
  induction n with
  | zero => intro L; rfl
  | succ m ih =>
    intro L
    show bufLenIter (m + 1) (bufLenStep L) = _
    rw [ih (bufLenStep L)]
    rfl

theorem inferCntIter_succ_outer : ∀ (n L : ℕ),
    inferCntIter (n + 1) L =
      inferCntIter n L + (if bufLenIter n L + 1 = 16 then 1 else 0) := by
  intro n
  induction n with
  | zero => intro L; simp [inferCntIter, bufLenIter]
  | succ m ih =>
    intro L
    show (if L + 1 = 16 then 1 else 0) + inferCntIter (m + 1) (bufLenStep L) = _
    rw [ih (bufLenStep L)]
    show _ = (if L + 1 = 16 then 1 else 0) + inferCntIter m (bufLenStep L) + _
    have : bufLenIter m (bufLenStep L) = bufLenIter (m + 1) L := rfl
    rw [this]
    omega

/-- Closed form of the buffer length after n deliveries from an empty
buffer: n itself up to 15, then alternating 14 (even n) and 15 (odd n). -/
theorem bufLenIter_zero_closed : ∀ n : ℕ,
    bufLenIter n 0 = if n ≤ 15 then n else 14 + n % 2 := by
  intro n
  induction n with
  | zero => rfl
  | succ m ih =>
    rw [bufLenIter_succ_outer, ih, bufLenStep]
    split_ifs <;> omega

/-- Closed form of the inference-call count after n deliveries from an empty
buffer: none before the 16th chunk, then one more every 2 chunks. -/
theorem inferCntIter_zero_closed : ∀ n : ℕ,
    inferCntIter n 0 = if n < 16 then 0 else (n - 14) / 2 := by
  intro n
  induction n with
  | zero => rfl
  | succ m ih =>
    rw [inferCntIter_succ_outer, ih, bufLenIter_zero_closed]
    split_ifs <;> omega

theorem listeners_foldl_eq_map (seq : List ℕ) : ∀ (ls : List ℕ) (acc : List Event),
    ls.foldl (fun a l => a ++ [Event.invoke l seq]) acc =
      acc ++ ls.map fun l => Event.invoke l seq
  | [], acc => by simp
  | l :: t, acc => by
    rw [List.foldl_cons, listeners_foldl_eq_map seq t (acc ++ [Event.invoke l seq])]
    simp

/-- One client handler step: the retained buffer is the appended buffer,
shortened by the 2 oldest chunks exactly when the append reached 16. -/
theorem HowlClient.on_audio_buf (engine : EngineModel) (vocab : List String)
    (st : ClientState) (c : Chunk) :
    ((HowlClient.on_audio engine vocab st c).1).audio_buf =
      if st.audio_buf.length + 1 = 16 then (st.audio_buf ++ [c]).drop 2
      else st.audio_buf ++ [c] := by
  unfold HowlClient.on_audio
  simp only [List.length_append, List.length_singleton]
  split_ifs <;> first | rfl | omega

/-- One client handler step emits exactly one inference call when the append
reaches 16 chunks, and none otherwise. -/
theorem HowlClient.on_audio_cnt (engine : EngineModel) (vocab : List String)
    (st : ClientState) (c : Chunk) :
    ((HowlClient.on_audio engine vocab st c).2).countP Event.isInferCall =
      if st.audio_buf.length + 1 = 16 then 1 else 0 := by
  unfold HowlClient.on_audio
  simp only [List.length_append, List.length_singleton]
  split_ifs <;>
    first
      | rfl
      | omega
      | simp [listeners_foldl_eq_map, List.countP_cons, List.countP_eq_zero,
          Event.isInferCall]

theorem HowlClient.on_audio_buf_len (engine : EngineModel) (vocab : List String)
    (st : ClientState) (c : Chunk) :
    ((HowlClient.on_audio engine vocab st c).1).audio_buf.length =
      bufLenStep st.audio_buf.length := by
  rw [HowlClient.on_audio_buf, bufLenStep]
  split_ifs <;> simp [List.length_drop, List.length_append] <;> omega

theorem HowlClient.deliver_buf_len (engine : EngineModel) (vocab : List String) :
    ∀ (chunks : List Chunk) (st : ClientState),
      ((HowlClient.deliver engine vocab st chunks).1).audio_buf.length =
        bufLenIter chunks.length st.audio_buf.length
  | [], st => rfl
  | c :: cs, st => by
    show ((HowlClient.deliver engine vocab
      (HowlClient.on_audio engine vocab st c).1 cs).1).audio_buf.length = _
    rw [HowlClient.deliver_buf_len engine vocab cs, HowlClient.on_audio_buf_len]
    rfl

theorem HowlClient.deliver_cnt (engine : EngineModel) (vocab : List String) :
    ∀ (chunks : List Chunk) (st : ClientState),
      ((HowlClient.deliver engine vocab st chunks).2).countP Event.isInferCall =
        inferCntIter chunks.length st.audio_buf.length
  | [], st => rfl
  | c :: cs, st => by
    show (((HowlClient.on_audio engine vocab st c).2 ++
      (HowlClient.deliver engine vocab (HowlClient.on_audio engine vocab st c).1 cs).2).countP
        Event.isInferCall) = _
    rw [List.countP_append, HowlClient.on_audio_cnt,
      HowlClient.deliver_cnt engine vocab cs, HowlClient.on_audio_buf_len]
    rfl

/-- One demo handler step: retained buffer, as for the client. -/
theorem InferenceClient.demo_on_audio_buf (engine : EngineModel) (words : List String)
    (st : DemoState) (c : Chunk) :
    ((InferenceClient.on_audio engine words st c).1).audio_buf =
      if st.audio_buf.length + 1 = 16 then (st.audio_buf ++ [c]).drop 2
      else st.audio_buf ++ [c] := by
  unfold InferenceClient.on_audio
  simp only [List.length_append, List.length_singleton]
  split_ifs <;> first | rfl | omega

/-- One demo handler step emits exactly one inference call when the append
reaches 16 chunks, and none otherwise. -/
theorem InferenceClient.demo_on_audio_cnt (engine : EngineModel) (words : List String)
    (st : DemoState) (c : Chunk) :
    ((InferenceClient.on_audio engine words st c).2).countP Event.isInferCall =
      if st.audio_buf.length + 1 = 16 then 1 else 0 := by
  unfold InferenceClient.on_audio
  simp only [List.length_append, List.length_singleton]
  split_ifs <;> first | rfl | omega

theorem InferenceClient.demo_on_audio_buf_len (engine : EngineModel) (words : List String)
    (st : DemoState) (c : Chunk) :
    ((InferenceClient.on_audio engine words st c).1).audio_buf.length =
      bufLenStep st.audio_buf.length := by
  rw [InferenceClient.demo_on_audio_buf, bufLenStep]
  split_ifs <;> simp [List.length_drop, List.length_append] <;> omega

theorem InferenceClient.demo_deliver_buf_len (engine : EngineModel) (words : List String) :
    ∀ (chunks : List Chunk) (st : DemoState),
      ((InferenceClient.deliver engine words st chunks).1).audio_buf.length =
        bufLenIter chunks.length st.audio_buf.length
  | [], st => rfl
  | c :: cs, st => by
    show ((InferenceClient.deliver engine words
      (InferenceClient.on_audio engine words st c).1 cs).1).audio_buf.length = _
    rw [InferenceClient.demo_deliver_buf_len engine words cs, InferenceClient.demo_on_audio_buf_len]
    rfl

theorem InferenceClient.demo_deliver_cnt (engine : EngineModel) (words : List String) :
    ∀ (chunks : List Chunk) (st : DemoState),
      ((InferenceClient.deliver engine words st chunks).2).countP Event.isInferCall =
        inferCntIter chunks.length st.audio_buf.length
  | [], st => rfl
  | c :: cs, st => by
    show (((InferenceClient.on_audio engine words st c).2 ++
      (InferenceClient.deliver engine words
        (InferenceClient.on_audio engine words st c).1 cs).2).countP Event.isInferCall) = _
    rw [List.countP_append, InferenceClient.demo_on_audio_cnt,
      InferenceClient.demo_deliver_cnt engine words cs, InferenceClient.demo_on_audio_buf_len]
    rfl

/-- C1: in both per-chunk handlers, an inference call occurs exactly at the
step whose append makes the buffer reach 16 chunks, and that same step leaves
14 retained chunks; from a fresh client (chunk_size 500), the buffer after n
delivered chunks holds n entries for n up to 15 and 14 + n mod 2 afterwards
(so 15 after the 17th chunk), and the number of inference calls is 0 before
the 16th chunk and (n - 14) / 2 afterwards (1 after the 16th and 17th, one
more per 2 further chunks). -/
theorem capture_window_cadence (engine : EngineModel) (vocab words : List String)
    (chunks : List Chunk) :
    (∀ (st : ClientState) (c : Chunk),
      ((HowlClient.on_audio engine vocab st c).2).countP Event.isInferCall =
        if st.audio_buf.length + 1 = 16 then 1 else 0) ∧
    (∀ (st : ClientState) (c : Chunk),
      ((HowlClient.on_audio engine vocab st c).1).audio_buf.length =
        if st.audio_buf.length + 1 = 16 then 14 else st.audio_buf.length + 1) ∧
    ((HowlClient.deliver engine vocab (ClientState.mk0 500) chunks).1).audio_buf.length =
      (if chunks.length ≤ 15 then chunks.length else 14 + chunks.length % 2) ∧
    ((HowlClient.deliver engine vocab (ClientState.mk0 500) chunks).2).countP
        Event.isInferCall =
      (if chunks.length < 16 then 0 else (chunks.length - 14) / 2) ∧
    (∀ (st : DemoState) (c : Chunk),
      ((InferenceClient.on_audio engine words st c).2).countP Event.isInferCall =
        if st.audio_buf.length + 1 = 16 then 1 else 0) ∧
    (∀ (st : DemoState) (c : Chunk),
      ((InferenceClient.on_audio engine words st c).1).audio_buf.length =
        if st.audio_buf.length + 1 = 16 then 14 else st.audio_buf.length + 1) ∧
    ((InferenceClient.deliver engine words (DemoState.mk0 500) chunks).1).audio_buf.length =
      (if chunks.length ≤ 15 then chunks.length else 14 + chunks.length % 2) ∧
    ((InferenceClient.deliver engine words (DemoState.mk0 500) chunks).2).countP
        Event.isInferCall =
      (if chunks.length < 16 then 0 else (chunks.length - 14) / 2) := by
  refine ⟨HowlClient.on_audio_cnt engine vocab, ?_, ?_, ?_,
    InferenceClient.demo_on_audio_cnt engine words, ?_, ?_, ?_⟩
  · intro st c
    rw [HowlClient.on_audio_buf_len, bufLenStep]
  · rw [HowlClient.deliver_buf_len]
    show bufLenIter chunks.length ([] : List Chunk).length = _
    rw [List.length_nil, bufLenIter_zero_closed]
  · rw [HowlClient.deliver_cnt]
    show inferCntIter chunks.length ([] : List Chunk).length = _
    rw [List.length_nil, inferCntIter_zero_closed]
  · intro st c
    rw [InferenceClient.demo_on_audio_buf_len, bufLenStep]
  · rw [InferenceClient.demo_deliver_buf_len]
    show bufLenIter chunks.length ([] : List Chunk).length = _
    rw [List.length_nil, bufLenIter_zero_closed]
  · rw [InferenceClient.demo_deliver_cnt]
    show inferCntIter chunks.length ([] : List Chunk).length = _
    rw [List.length_nil, inferCntIter_zero_closed]

theorem add_listener_foldl_listeners : ∀ (ls : List ℕ) (st : ClientState),
    (ls.foldl HowlClient.add_listener st).listeners = st.listeners ++ ls
  | [], st => by simp
  | l :: t, st => by
    rw [List.foldl_cons, add_listener_foldl_listeners t]
    simp [HowlClient.add_listener]

theorem add_listener_foldl_buf : ∀ (ls : List ℕ) (st : ClientState),
    (ls.foldl HowlClient.add_listener st).audio_buf = st.audio_buf
  | [], st => rfl
  | l :: t, st => by
    rw [List.foldl_cons, add_listener_foldl_buf t]
    rfl

/-- C2: registering the listeners ls (in order, starting from a client with
no listeners) yields exactly the listener list ls; and on the delivery that
completes a 16-chunk window with a positive detection, the handler emits the
inference call, then the log line "<Phrase> detected" where the phrase is the
title-cased space-join of the vocabulary entries of the detected sequence,
and then one invocation per registered listener, in registration order, each
carrying the raw label-index sequence. -/
theorem detection_dispatch (engine : EngineModel) (vocab : List String)
    (ls : List ℕ) (base : ClientState) (hbase : base.listeners = [])
    (hbuf : base.audio_buf.length = 15) (c : Chunk)
    (hdet : engine.infer (normalizeWindow (base.audio_buf ++ [c]).flatten) = true) :
    (ls.foldl HowlClient.add_listener base).listeners = ls ∧
    (HowlClient.on_audio engine vocab (ls.foldl HowlClient.add_listener base) c).2 =
      Event.inferCall (normalizeWindow (base.audio_buf ++ [c]).flatten) ::
      Event.log (pyTitle (String.intercalate " "
        ((engine.sequence (normalizeWindow (base.audio_buf ++ [c]).flatten)).map
          fun x => vocab.getD x "")) ++ " detected") ::
      ls.map (fun l => Event.invoke l
        (engine.sequence (normalizeWindow (base.audio_buf ++ [c]).flatten))) := by
  have hlist : (ls.foldl HowlClient.add_listener base).listeners = ls := by
    rw [add_listener_foldl_listeners, hbase, List.nil_append]
  have hb : (ls.foldl HowlClient.add_listener base).audio_buf = base.audio_buf :=
    add_listener_foldl_buf ls base
  refine ⟨hlist, ?_⟩
  unfold HowlClient.on_audio
  simp only [hb, List.length_append, List.length_singleton, hbuf]
  rw [if_neg (by omega : ¬(15 + 1 ≠ 16)), if_pos hdet]
  simp only [hlist, listeners_foldl_eq_map, List.nil_append]

/-- Witness for C2: three vocabulary words, a constant-positive engine with
sequence [0, 1, 2], listeners [7, 7, 3] (registered twice for 7, no
de-duplication), a buffer of 15 empty chunks completed by an empty chunk. -/
theorem detection_dispatch_witness :
    (⟨[], List.replicate 15 [], []⟩ : ClientState).listeners = [] ∧
    (⟨[], List.replicate 15 [], []⟩ : ClientState).audio_buf.length = 15 ∧
    ([7, 7, 3].foldl HowlClient.add_listener
      (⟨[], List.replicate 15 [], []⟩ : ClientState)).listeners = [7, 7, 3] ∧
    (HowlClient.on_audio ⟨fun _ => true, fun _ => [0, 1, 2]⟩ ["hey", "fire", "fox"]
        ([7, 7, 3].foldl HowlClient.add_listener
          (⟨[], List.replicate 15 [], []⟩ : ClientState)) []).2 =
      [Event.inferCall [], Event.log "Hey Fire Fox detected",
       Event.invoke 7 [0, 1, 2], Event.invoke 7 [0, 1, 2], Event.invoke 3 [0, 1, 2]] := by
  have h := detection_dispatch ⟨fun _ => true, fun _ => [0, 1, 2]⟩ ["hey", "fire", "fox"]
    [7, 7, 3] ⟨[], List.replicate 15 [], []⟩ rfl (by decide) [] rfl
  exact ⟨rfl, by decide, h.1, h.2.trans (by decide)⟩

/-- Compute device selected by torch.device: the CPU or a CUDA device with an
index. -/
inductive TorchDevice where
  | cpu
  | cuda : ℤ → TorchDevice
deriving DecidableEq

/-- Python values that can arrive at _get_device: the HowlClient instance
(bound as an implicit first argument) or an integer. -/
inductive PyVal where
  | clientObject : PyVal
  | intVal : ℤ → PyVal
deriving DecidableEq

/-- Python exception raised before a mis-called function body runs. -/
inductive PyError where
  | typeError : String → PyError
deriving DecidableEq

/-- Body of HowlClient._get_device (lines 33-37): its one declared parameter
is device; -1 selects the CPU device and any other integer the CUDA device
with that index. -/
def HowlClient.get_device_body (device : ℤ) : TorchDevice :=
  if device = -1 then TorchDevice.cpu else TorchDevice.cuda device

/-- Call protocol of _get_device: the function is declared with exactly one
parameter and no self parameter and no staticmethod decorator, so CPython
checks the arity of the argument list before the body runs and raises
TypeError for any other number of positional arguments.  (Only the
two-argument call below is ever produced by this code.) -/
def HowlClient.get_device_call : List PyVal → Except PyError TorchDevice
  | [PyVal.intVal d] => Except.ok (HowlClient.get_device_body d)
  | args => Except.error (PyError.typeError
      ("_get_device() takes 1 positional argument but " ++
        toString args.length ++ " were given"))

/-- Result of a completed HowlClient.__init__ (lines 13-26): the computed
device, no listeners, the chunk size, the opened PyAudio handle (line 24) and
no opened stream. -/
structure ClientInit where
  device : TorchDevice
  listeners : List ℕ
  chunk_size : ℕ
  audio_handle_opened : Bool
  stream_opened : Bool
deriving DecidableEq

/-- HowlClient.__init__ (lines 13-26).  Line 20 evaluates
self._get_device(device): the attribute lookup on the instance binds the
instance itself as the first positional argument, so the one-parameter
function receives two arguments.  Everything after line 20 — including
opening the PyAudio handle on line 24 — runs only if that call returns. -/
def HowlClient.init (device : ℤ) (chunk_size : ℕ) : Except PyError ClientInit :=
  match HowlClient.get_device_call [PyVal.clientObject, PyVal.intVal device] with
  | Except.error e => Except.error e
  | Except.ok dev =>
      Except.ok { device := dev, listeners := [], chunk_size := chunk_size,
                  audio_handle_opened := true, stream_opened := false }

/-- C3: contrary to the claim, HowlClient construction never succeeds: for
every integer device argument the bound call self._get_device(device) passes
two positional arguments to the one-parameter function _get_device, so
CPython raises TypeError before the device is set and before the PyAudio
handle is opened.  The body of _get_device does implement the claimed
selection (CPU for -1, CUDA at index d otherwise), which marks the claim as
the intent and the missing self parameter (or staticmethod decorator) as the
slip. -/
theorem howl_client_init_type_error :
    (∀ (d : ℤ) (cs : ℕ), HowlClient.init d cs =
      Except.error (PyError.typeError
        "_get_device() takes 1 positional argument but 2 were given")) ∧
    HowlClient.get_device_body (-1) = TorchDevice.cpu ∧
    (∀ d : ℤ, d ≠ -1 → HowlClient.get_device_body d = TorchDevice.cuda d) := by
  refine ⟨fun d cs => ?_, by decide, fun d hd => ?_⟩
  · simp [HowlClient.init, HowlClient.get_device_call]
    rfl
  · simp [HowlClient.get_device_body, hd]

/-- Witness for C3 at device -1 (and, for the intended body, at 3). -/
theorem howl_client_init_type_error_witness :
    HowlClient.init (-1) 500 =
      Except.error (PyError.typeError
        "_get_device() takes 1 positional argument but 2 were given") ∧
    ((3 : ℤ) ≠ -1 ∧ HowlClient.get_device_body 3 = TorchDevice.cuda 3) :=
  ⟨howl_client_init_type_error.1 (-1) 500,
    by decide, howl_client_init_type_error.2.2 3 (by decide)⟩

/-- Audio-subsystem operations that HowlClient.start can perform, in order:
enumerating the input devices (lines 72-77), opening the input stream with
the chosen device index and frames_per_buffer = chunk_size (lines 79-85), and
starting it (line 87). -/
inductive AudioOp where
  | enumerateDevices
  | openStream : ℕ → ℕ → AudioOp
  | startStream
deriving DecidableEq

/-- Device choice of lines 72-77: the index of the first input device named
pulse, else index 0. -/
def chooseDevice (devices : List String) : ℕ :=
  match devices.findIdx? (fun n => n == "pulse") with
  | some i => i
  | none => 0

/-- HowlClient.start (lines 61-87): raise AttributeError mentioning the
engine when the engine is unset, else raise AttributeError mentioning the
context when the context is unset — in both cases before any audio device is
touched — else enumerate the devices, choose one, open the stream and start
it.  The result is paired with the list of audio operations performed. -/
def HowlClient.start (engine : Option EngineModel) (ctx : Option (List String))
    (devices : List String) (chunk_size : ℕ) : Except String ℕ × List AudioOp :=
  if engine.isNone then
    (Except.error "Please provide an InferenceEngine or initialize using from_pretrained.", [])
  else if ctx.isNone then
    (Except.error "Please provide an InferenceContext or initialize using from_pretrained.", [])
  else
    (Except.ok (chooseDevice devices),
      [AudioOp.enumerateDevices,
       AudioOp.openStream (chooseDevice devices) chunk_size,
       AudioOp.startStream])

/-- C4: starting a client whose engine or context is unset fails with a
configuration error and performs no audio operation at all: no device is
enumerated and no stream is opened. -/
theorem start_unset_fails_before_audio (engine : Option EngineModel)
    (ctx : Option (List String)) (devices : List String) (chunk_size : ℕ)
    (h : engine = none ∨ ctx = none) :
    (∃ msg, (HowlClient.start engine ctx devices chunk_size).1 = Except.error msg) ∧
    (HowlClient.start engine ctx devices chunk_size).2 = [] := by
  rcases h with rfl | rfl
  · exact ⟨⟨_, rfl⟩, rfl⟩
  · cases engine with
    | none => exact ⟨⟨_, rfl⟩, rfl⟩
    | some e => exact ⟨⟨_, rfl⟩, rfl⟩

/-- Witness for C4: unset engine, context present, no devices. -/
theorem start_unset_fails_before_audio_witness :
    (none = (none : Option EngineModel) ∨ some ([] : List String) = none) ∧
    (∃ msg, (HowlClient.start none (some []) [] 500).1 = Except.error msg) ∧
    (HowlClient.start none (some []) [] 500).2 = [] :=
  ⟨Or.inl rfl, start_unset_fails_before_audio none (some []) [] 500 (Or.inl rfl)⟩

end Howl
